import Mathlib

/-!
# Verification of the `itsdangerous` signing core

A shallow embedding of the `itsdangerous` Rust crate (separator-framed
signing, URL-safe unpadded base64, compact legacy-epoch timestamps, timed
signing, multi-serializer fallback) together with proofs about the claims
of the specification.

Modelling conventions:

* Byte strings are `List Nat` with every element `< 256`; Rust `&str`
  values are `List Char` (Unicode scalar values), and `utf8Encode` is the
  UTF-8 byte encoding used by `str::as_bytes`.
* Fallible Rust computations are embedded in `PResult`, which has a
  distinguished `panic` constructor: Rust panics (slice-index
  out-of-bounds, `unwrap` of `Err`, and integer overflow, which Rust
  defines as a program error that is detected in debug builds) are
  modelled as `PResult.panic`.
* The keyed-MAC primitive is an external collaborator of the core, so the
  embedding is parametric in a `SigningAlgorithm` structure: any function
  from key and message bytes to a fixed-size signature byte string.
  `NoneAlgorithm` (the crate's built-in no-op algorithm) and a small
  concrete `SumAlgorithm` instance (used to evaluate theorems on closed
  inputs) instantiate it.
* The `base64` dependency (v0.10, as used by the crate) is embedded
  executably: URL-safe alphabet, no padding.  `decode_config_slice`,
  which the crate calls with a fixed-size output buffer, is documented to
  panic when the output slice is too small for the decoded data; the
  embedding `base64.decode` therefore yields `PResult.panic` when the
  decoded byte length exceeds the buffer size.  (The real decoder
  interleaves validation and writing; this embedding validates the whole
  input first.  The two agree on every input that is entirely valid
  base64 or whose decoded length fits the buffer, which covers all
  theorem statements below.)
-/

/-- Result of an embedded Rust computation: a panic, an error value
returned as `Err`, or a success value returned as `Ok`. -/
inductive PResult (ε : Type) (α : Type) where
  | panic : PResult ε α
  | err (e : ε) : PResult ε α
  | ok (a : α) : PResult ε α
  deriving DecidableEq, Repr

namespace PResult

/-- Sequencing of embedded computations: a panic or error short-circuits. -/
def bind {ε α β : Type} (r : PResult ε α) (f : α → PResult ε β) : PResult ε β :=
  match r with
  | .panic => .panic
  | .err e => .err e
  | .ok a => f a

/-- `isOk` is true exactly on `ok` results. -/
def isOk {ε α : Type} : PResult ε α → Bool
  | .ok _ => true
  | _ => false

end PResult

namespace base64

/-- The URL-safe base64 encode alphabet (`base64::URL_SAFE_NO_PAD`). -/
def encodeAlphabet : List Char :=
  "ABCDEFGHIJKLMNOPQRSTUVWXYZabcdefghijklmnopqrstuvwxyz0123456789-_".toList

/-- `BASE64_ALPHABET` from `base64.rs`: the characters a separator must
avoid.  Note it also contains `'='` even though unpadded encoding never
emits it. -/
def BASE64_ALPHABET : List Char :=
  "abcdefghijklmnopqrstuvwxyzABCDEFGHIJKLMNOPQRSTUVWXYZ0123456789-_=".toList

/-- `base64::in_alphabet` from `base64.rs`. -/
def in_alphabet (c : Char) : Bool := BASE64_ALPHABET.contains c

/-- Map a sextet (6-bit value) to its alphabet character. -/
def encodeSextet (s : Nat) : Char := encodeAlphabet.getD s '?'

/-- Decode-table lookup: the index of a character in the encode alphabet,
or `none` for a character outside the alphabet. -/
def decodeSextet (c : Char) : Option Nat := encodeAlphabet.findIdx? (· = c)

/-- Byte triples to sextets: the chunking step of unpadded base64
encoding.  3 bytes become 4 sextets; 1 leftover byte becomes 2 sextets
and 2 leftover bytes become 3 sextets. -/
def encodeChunks : List Nat → List Nat
  | [] => []
  | [b1] => [b1 / 4, b1 % 4 * 16]
  | [b1, b2] => [b1 / 4, b1 % 4 * 16 + b2 / 16, b2 % 16 * 4]
  | b1 :: b2 :: b3 :: rest =>
      b1 / 4 :: (b1 % 4 * 16 + b2 / 16) :: (b2 % 16 * 4 + b3 / 64) :: b3 % 64 ::
        encodeChunks rest

/-- URL-safe unpadded base64 encoding of a byte string
(`base64::encode_config` with `URL_SAFE_NO_PAD`). -/
def encode (bs : List Nat) : List Char := (encodeChunks bs).map encodeSextet

/-- Errors of the external base64 decoder. -/
inductive DecodeError where
  | invalidByte
  | invalidLength
  | invalidLastSymbol
  deriving DecidableEq, Repr

/-- Look up every input character in the decode table; the first
character outside the alphabet fails the decode. -/
def charsToSextets : List Char → Except DecodeError (List Nat)
  | [] => .ok []
  | c :: rest =>
      match decodeSextet c with
      | none => .error .invalidByte
      | some s => (charsToSextets rest).map (s :: ·)

/-- Sextets back to bytes, 4 sextets per 3 bytes.  A trailing group of one
sextet is an invalid length; trailing groups of 2 or 3 sextets must have
zero spare bits in their last symbol (`InvalidLastSymbol`), exactly as the
unpadded decoder of the `base64` crate checks. -/
def decodeQuads : List Nat → Except DecodeError (List Nat)
  | [] => .ok []
  | [_] => .error .invalidLength
  | [s1, s2] =>
      if s2 % 16 = 0 then .ok [s1 * 4 + s2 / 16] else .error .invalidLastSymbol
  | [s1, s2, s3] =>
      if s3 % 4 = 0 then .ok [s1 * 4 + s2 / 16, s2 % 16 * 16 + s3 / 4]
      else .error .invalidLastSymbol
  | s1 :: s2 :: s3 :: s4 :: rest =>
      (decodeQuads rest).map
        (fun bs => (s1 * 4 + s2 / 16) :: (s2 % 16 * 16 + s3 / 4) :: (s3 % 4 * 64 + s4) :: bs)

/-- Full (buffer-less) URL-safe unpadded base64 decoding.  The decoder
rejects inputs whose length is `1 mod 4` up front, then rejects
out-of-alphabet characters and non-canonical trailing bits. -/
def decodeFull (input : List Char) : Except DecodeError (List Nat) :=
  if input.length % 4 = 1 then .error .invalidLength
  else
    match charsToSextets input with
    | .error e => .error e
    | .ok sexts => decodeQuads sexts

/-- `base64::decode` from `base64.rs`: `base64::decode_config_slice` into a
fixed-size buffer of `bufLen` bytes.  Decoding more bytes than the buffer
holds panics (out-of-bounds slice write in the external decoder, which
documents "Panics: if the output slice is too small"). -/
def decode (bufLen : Nat) (input : List Char) : PResult DecodeError (List Nat) :=
  match decodeFull input with
  | .error e => .err e
  | .ok bytes => if bytes.length > bufLen then .panic else .ok bytes

/-- `output_size` of `Base64SizedEncoder`: the typenum formula
`(N / 3) * 4 + (N % 3) + min (N % 3) 1`. -/
def output_size (n : Nat) : Nat := n / 3 * 4 + (n % 3 + min (n % 3) 1)

end base64

namespace base64

theorem encodeChunks_lt (bs : List Nat) (h : ∀ b ∈ bs, b < 256) :
    ∀ s ∈ encodeChunks bs, s < 64 :=
  match bs with
  | [] => by simp [encodeChunks]
  | [b1] => by
      have h1 : b1 < 256 := h b1 (by simp)
      simp only [encodeChunks, List.mem_cons, List.not_mem_nil, or_false]
      rintro s (rfl | rfl) <;> omega
  | [b1, b2] => by
      have h1 : b1 < 256 := h b1 (by simp)
      have h2 : b2 < 256 := h b2 (by simp)
      simp only [encodeChunks, List.mem_cons, List.not_mem_nil, or_false]
      rintro s (rfl | rfl | rfl) <;> omega
  | b1 :: b2 :: b3 :: rest => by
      have h1 : b1 < 256 := h b1 (by simp)
      have h2 : b2 < 256 := h b2 (by simp)
      have h3 : b3 < 256 := h b3 (by simp)
      have ih := encodeChunks_lt rest (fun b hb => h b (by simp [hb]))
      simp only [encodeChunks, List.mem_cons]
      rintro s (rfl | rfl | rfl | rfl | hs)
      · omega
      · omega
      · omega
      · omega
      · exact ih s hs

theorem encodeChunks_length (bs : List Nat) :
    (encodeChunks bs).length = output_size bs.length :=
  match bs with
  | [] => by simp [encodeChunks, output_size]
  | [_] => by simp [encodeChunks, output_size]
  | [_, _] => by simp [encodeChunks, output_size]
  | _ :: _ :: _ :: rest => by
      have ih := encodeChunks_length rest
      simp only [encodeChunks, List.length_cons, ih, output_size]
      omega

theorem encode_length (bs : List Nat) :
    (encode bs).length = output_size bs.length := by
  simp [encode, encodeChunks_length]

theorem decodeQuads_encodeChunks (bs : List Nat) (h : ∀ b ∈ bs, b < 256) :
    decodeQuads (encodeChunks bs) = .ok bs :=
  match bs with
  | [] => by simp [encodeChunks, decodeQuads]
  | [b1] => by
      have h1 : b1 < 256 := h b1 (by simp)
      simp only [encodeChunks, decodeQuads]
      rw [if_pos (by omega)]
      congr 2
      omega
  | [b1, b2] => by
      have h1 : b1 < 256 := h b1 (by simp)
      have h2 : b2 < 256 := h b2 (by simp)
      simp only [encodeChunks, decodeQuads]
      rw [if_pos (by omega)]
      congr 3
      · omega
      · omega
  | b1 :: b2 :: b3 :: rest => by
      have h1 : b1 < 256 := h b1 (by simp)
      have h2 : b2 < 256 := h b2 (by simp)
      have h3 : b3 < 256 := h b3 (by simp)
      have ih := decodeQuads_encodeChunks rest (fun b hb => h b (by simp [hb]))
      simp only [encodeChunks, decodeQuads, ih, Except.map]
      congr 4
      · omega
      · omega
      · omega

theorem decodeSextet_encodeSextet (s : Nat) (h : s < 64) :
    decodeSextet (encodeSextet s) = some s := by
  revert s
  decide

theorem charsToSextets_encode (ss : List Nat) (h : ∀ s ∈ ss, s < 64) :
    charsToSextets (ss.map encodeSextet) = .ok ss := by
  induction ss with
  | nil => simp [charsToSextets]
  | cons s rest ih =>
      have hs : s < 64 := h s (by simp)
      simp only [List.map_cons, charsToSextets,
        decodeSextet_encodeSextet s hs, ih (fun x hx => h x (by simp [hx])),
        Except.map]

theorem decodeFull_encode (bs : List Nat) (h : ∀ b ∈ bs, b < 256) :
    decodeFull (encode bs) = .ok bs := by
  have hlen : (encode bs).length % 4 ≠ 1 := by
    rw [encode_length]
    unfold output_size
    omega
  unfold decodeFull
  rw [if_neg hlen]
  unfold encode
  rw [charsToSextets_encode _ (encodeChunks_lt bs h)]
  exact decodeQuads_encodeChunks bs h

theorem decode_encode (bufLen : Nat) (bs : List Nat) (h : ∀ b ∈ bs, b < 256)
    (hle : bs.length ≤ bufLen) : decode bufLen (encode bs) = .ok bs := by
  unfold decode
  rw [decodeFull_encode bs h]
  simp [Nat.not_lt.mpr hle]

theorem decodeQuads_length (ss bs : List Nat) (h : decodeQuads ss = .ok bs) :
    bs.length = 3 * (ss.length / 4) + (ss.length % 4 - min 1 (ss.length % 4)) :=
  match ss with
  | [] => by
      simp only [decodeQuads, Except.ok.injEq] at h
      simp [← h]
  | [_] => by simp [decodeQuads] at h
  | [s1, s2] => by
      simp only [decodeQuads] at h
      split at h
      · cases h
        simp
      · cases h
  | [s1, s2, s3] => by
      simp only [decodeQuads] at h
      split at h
      · cases h
        simp
      · cases h
  | s1 :: s2 :: s3 :: s4 :: rest => by
      simp only [decodeQuads, Except.map] at h
      cases hr : decodeQuads rest with
      | error e => rw [hr] at h; cases h
      | ok bs' =>
          rw [hr] at h
          cases h
          have ih := decodeQuads_length rest bs' hr
          simp only [List.length_cons, ih]
          omega

theorem charsToSextets_length (cs : List Char) (ss : List Nat)
    (h : charsToSextets cs = .ok ss) : ss.length = cs.length :=
  match cs with
  | [] => by
      simp only [charsToSextets, Except.ok.injEq] at h
      simp [← h]
  | c :: rest => by
      simp only [charsToSextets] at h
      cases hd : decodeSextet c with
      | none => rw [hd] at h; cases h
      | some s =>
          rw [hd] at h
          simp only [Except.map] at h
          cases hr : charsToSextets rest with
          | error e => rw [hr] at h; cases h
          | ok ss' =>
              rw [hr] at h
              cases h
              simp [charsToSextets_length rest ss' hr]

/-- Bytes successfully decoded from an input no longer than `output_size n`
never exceed `n`: the fixed-size decode of such an input cannot panic. -/
theorem decodeFull_length_le (n : Nat) (input : List Char) (bs : List Nat)
    (hlen : input.length ≤ output_size n) (h : decodeFull input = .ok bs) :
    bs.length ≤ n := by
  unfold decodeFull at h
  split at h
  · cases h
  · rename_i hmod
    cases hcs : charsToSextets input with
    | error e => rw [hcs] at h; cases h
    | ok ss =>
        rw [hcs] at h
        have h1 := decodeQuads_length ss bs h
        have h2 := charsToSextets_length input ss hcs
        rw [h2] at h1
        unfold output_size at hlen
        omega

end base64

namespace base64

theorem encodeSextet_in_alphabet (s : Nat) (h : s < 64) :
    in_alphabet (encodeSextet s) = true := by
  revert s
  decide

theorem encodeSextet_toNat_lt (s : Nat) (h : s < 64) : (encodeSextet s).toNat < 128 := by
  revert s
  decide

theorem encode_mem_in_alphabet (bs : List Nat) (h : ∀ b ∈ bs, b < 256) :
    ∀ c ∈ encode bs, in_alphabet c = true := by
  intro c hc
  simp only [encode, List.mem_map] at hc
  obtain ⟨s, hs, rfl⟩ := hc
  exact encodeSextet_in_alphabet s (encodeChunks_lt bs h s hs)

theorem encode_mem_toNat_lt (bs : List Nat) (h : ∀ b ∈ bs, b < 256) :
    ∀ c ∈ encode bs, c.toNat < 128 := by
  intro c hc
  simp only [encode, List.mem_map] at hc
  obtain ⟨s, hs, rfl⟩ := hc
  exact encodeSextet_toNat_lt s (encodeChunks_lt bs h s hs)

theorem not_mem_encode (bs : List Nat) (sep : Char) (h : ∀ b ∈ bs, b < 256)
    (hsep : in_alphabet sep = false) : sep ∉ encode bs := by
  intro hmem
  have := encode_mem_in_alphabet bs h sep hmem
  rw [hsep] at this
  cases this

end base64

/-- UTF-8 encoding of a single Unicode scalar value, as produced by
`str::as_bytes` in Rust. -/
def utf8Char (c : Char) : List Nat :=
  let n := c.toNat
  if n < 0x80 then [n]
  else if n < 0x800 then [0xC0 + n / 64, 0x80 + n % 64]
  else if n < 0x10000 then [0xE0 + n / 4096, 0x80 + n / 64 % 64, 0x80 + n % 64]
  else [0xF0 + n / 262144, 0x80 + n / 4096 % 64, 0x80 + n / 64 % 64, 0x80 + n % 64]

/-- UTF-8 encoding of a string (`str::as_bytes`). -/
def utf8Encode (s : List Char) : List Nat := s.flatMap utf8Char

theorem utf8Encode_append (s t : List Char) :
    utf8Encode (s ++ t) = utf8Encode s ++ utf8Encode t := by
  simp [utf8Encode]

theorem utf8Char_ascii (c : Char) (h : c.toNat < 128) : utf8Char c = [c.toNat] := by
  simp [utf8Char, h]

/-- The signing-algorithm collaborator (`SigningAlgorithm` in
`algorithm.rs`): a keyed MAC with a fixed output size, producing
signature bytes.  The incremental `Signer` object of the source
accumulates its `input` calls and MACs the concatenation. -/
structure SigningAlgorithm where
  outputSize : Nat
  mac : List Nat → List Nat → List Nat
  mac_length : ∀ key msg, (mac key msg).length = outputSize
  mac_lt : ∀ key msg, ∀ b ∈ mac key msg, b < 256

/-- `NoneAlgorithm` from `algorithm.rs`: zero-length signature, `input`
is a no-op. -/
def NoneAlgorithm : SigningAlgorithm where
  outputSize := 0
  mac := fun _ _ => []
  mac_length := by intros; rfl
  mac_lt := by intros; simp_all

/-- A concrete instance of the MAC collaborator with output size `n`,
used to evaluate the theorems below on closed inputs (the real
`HMACAlgorithm<Digest>` is an external collaborator). -/
def SumAlgorithm (n : Nat) : SigningAlgorithm where
  outputSize := n
  mac := fun key msg => List.replicate n ((key.sum + msg.sum) % 256)
  mac_length := by intros; simp
  mac_lt := by
    intro key msg b hb
    have := List.eq_of_mem_replicate hb
    omega

/-- `Separator::split` from `separator.rs`: `value.rsplitn(2, sep)` splits
at the last occurrence of the separator, yielding the part before it and
the part after it; `none` models the `SeparatorNotFound` error. -/
def Separator.split (sep : Char) : List Char → Option (List Char × List Char)
  | [] => none
  | c :: rest =>
      match Separator.split sep rest with
      | some (a, b) => some (c :: a, b)
      | none => if c = sep then some ([], rest) else none

theorem Separator.split_none_of_not_mem (sep : Char) (l : List Char) (h : sep ∉ l) :
    Separator.split sep l = none := by
  induction l with
  | nil => rfl
  | cons c rest ih =>
      simp only [List.mem_cons, not_or] at h
      simp only [Separator.split, ih h.2]
      rw [if_neg (fun hc => h.1 hc.symm)]

theorem Separator.not_mem_of_split_none (sep : Char) (l : List Char)
    (h : Separator.split sep l = none) : sep ∉ l := by
  induction l with
  | nil => simp
  | cons c rest ih =>
      simp only [Separator.split] at h
      cases hr : Separator.split sep rest with
      | some p => rw [hr] at h; cases h
      | none =>
          rw [hr] at h
          by_cases hc : c = sep
          · rw [if_pos hc] at h
            cases h
          · rw [if_neg hc] at h
            simp only [List.mem_cons, not_or]
            exact ⟨fun hsc => hc hsc.symm, ih hr⟩

theorem Separator.split_append (sep : Char) (v tail : List Char) (h : sep ∉ tail) :
    Separator.split sep (v ++ sep :: tail) = some (v, tail) := by
  induction v with
  | nil => simp [Separator.split, Separator.split_none_of_not_mem sep tail h]
  | cons c rest ih => simp [Separator.split, ih]

theorem Separator.split_eq_some (sep : Char) : ∀ (l a b : List Char),
    Separator.split sep l = some (a, b) → l = a ++ sep :: b ∧ sep ∉ b
  | [], a, b => by intro h; cases h
  | c :: rest, a, b => by
      intro h
      simp only [Separator.split] at h
      cases hr : Separator.split sep rest with
      | some p =>
          obtain ⟨a1, b1⟩ := p
          rw [hr] at h
          simp only [Option.some.injEq, Prod.mk.injEq] at h
          obtain ⟨h1, h2⟩ := h
          subst h1
          subst h2
          obtain ⟨he, hnb⟩ := Separator.split_eq_some sep rest a1 b1 hr
          exact ⟨by rw [he]; rfl, hnb⟩
      | none =>
          rw [hr] at h
          by_cases hc : c = sep
          · rw [if_pos hc] at h
            simp only [Option.some.injEq, Prod.mk.injEq] at h
            obtain ⟨h1, h2⟩ := h
            subst h1
            subst h2
            subst hc
            exact ⟨rfl, Separator.not_mem_of_split_none _ _ hr⟩
          · rw [if_neg hc] at h
            cases h

/-- `BadSignature` from `error.rs` (the `PayloadInvalid` variant belongs to
the serializer layer, which is modelled separately below, so the payload
error detail is not carried here). -/
inductive BadSignature where
  | separatorNotFound (separator : Char)
  | signatureMismatch (signature : List Char) (value : List Char)
  deriving DecidableEq, Repr

/-- `BadTimedSignature` from `error.rs`.  Timestamps are `Int` seconds
since the Unix epoch and `max_age` is a duration in whole seconds. -/
inductive BadTimedSignature where
  | separatorNotFound (separator : Char)
  | signatureMismatch (signature : List Char) (value : List Char)
  | timestampMissing (value : List Char)
  | timestampInvalid (timestamp : List Char)
  | timestampExpired (timestamp : Int) (maxAge : Nat) (value : List Char)
  deriving DecidableEq, Repr

/-- The `From<BadSignature> for BadTimedSignature` conversion in
`error.rs`. -/
def BadSignature.toTimed : BadSignature → BadTimedSignature
  | .separatorNotFound s => .separatorNotFound s
  | .signatureMismatch sig v => .signatureMismatch sig v

namespace Signer

/-- `Signer::sign` from `signer.rs`: `value + separator +
base64(MAC(derived_key, value_bytes))`. -/
def sign (A : SigningAlgorithm) (derivedKey : List Nat) (sep : Char)
    (value : List Char) : List Char :=
  value ++ sep :: base64.encode (A.mac derivedKey (utf8Encode value))

/-- `Signer::unsign` from `signer.rs`: split at the last separator, decode
the signature into a buffer of the algorithm's output size
(`decode_signature`, whose `into_exact_inner` rejects a decoded length
different from the buffer length), and compare MACs; any decode error
collapses into `SignatureMismatch` (`verify_encoded_signature`). -/
def unsign (A : SigningAlgorithm) (derivedKey : List Nat) (sep : Char)
    (input : List Char) : PResult BadSignature (List Char) :=
  match Separator.split sep input with
  | none => .err (.separatorNotFound sep)
  | some (value, signature) =>
      match base64.decode A.outputSize signature with
      | .panic => .panic
      | .err _ => .err (.signatureMismatch signature value)
      | .ok sigBytes =>
          if sigBytes.length = A.outputSize then
            if A.mac derivedKey (utf8Encode value) = sigBytes then .ok value
            else .err (.signatureMismatch signature value)
          else .err (.signatureMismatch signature value)

end Signer

namespace timestamp

/-- `LEGACY_EPOCH` from `timestamp.rs` (seconds from 1970-01-01 to
2011-01-01). -/
def LEGACY_EPOCH : Nat := 1293840000

/-- Big-endian byte string of fixed width `w` for a natural number (the
`to_be`-transmuted `u64` of the source has `w = 8`). -/
def toBytesBE : Nat → Nat → List Nat
  | 0, _ => []
  | w + 1, n => toBytesBE w (n / 256) ++ [n % 256]

/-- Big-endian interpretation of a byte string. -/
def fromBytesBE (bs : List Nat) : Nat := bs.foldl (fun acc b => acc * 256 + b) 0

/-- `timestamp::encode` from `timestamp.rs`.  `duration_since(UNIX_EPOCH)`
is `unwrap`ped (panic for times before 1970), `LEGACY_EPOCH` is subtracted
in `u64` arithmetic (overflow — a Rust program error, a debug-build
panic — for times before 2011), the 8 big-endian bytes are stripped of
leading zeros and base64-encoded into an 11-byte buffer. -/
def encode (ts : Int) : PResult Empty (List Char) :=
  if ts < 0 then .panic
  else if ts.toNat < LEGACY_EPOCH then .panic
  else
    let delta := ts.toNat - LEGACY_EPOCH
    let timestampBytes := toBytesBE 8 delta
    .ok (base64.encode (timestampBytes.dropWhile (· = 0)))

/-- `timestamp::decode` from `timestamp.rs`: base64-decode into an 8-byte
buffer (any decode failure is `TimestampInvalid`), left-pad with zeros to
8 bytes, read as a big-endian `u64` and add `LEGACY_EPOCH` back (`u64`
overflow is again a program error, modelled as a panic).  The
`UNIX_EPOCH.checked_add` overflow check of the source concerns the
platform's `SystemTime` range, which the unbounded model never exceeds. -/
def decode (tsChars : List Char) : PResult BadTimedSignature Int :=
  match base64.decode 8 tsChars with
  | .panic => .panic
  | .err _ => .err (.timestampInvalid tsChars)
  | .ok timestampBytes =>
      let padded := List.replicate (8 - timestampBytes.length) 0 ++ timestampBytes
      let secs := fromBytesBE padded
      if secs + LEGACY_EPOCH < 2 ^ 64 then .ok (Int.ofNat (secs + LEGACY_EPOCH))
      else .panic

end timestamp

namespace TimestampSigner

/-- The incremental MAC computation of `sign_with_timestamp` in
`timed.rs`: `get_signer().input_chained(value.as_bytes())
.input_chained(&[seperator as u8]).input_chained(encoded_timestamp)
.sign()`.  The accumulated input is the concatenation of the three
chunks, and `seperator as u8` truncates the separator's code point to
eight bits. -/
def timedSignature (A : SigningAlgorithm) (derivedKey : List Nat) (sep : Char)
    (value : List Char) (encodedTimestamp : List Char) : List Nat :=
  A.mac derivedKey
    ((([] ++ utf8Encode value) ++ [sep.toNat % 256]) ++ encodedTimestamp.map Char.toNat)

/-- `TimestampSigner::sign_with_timestamp` from `timed.rs`: the output is
`value + sep + encoded_timestamp + sep + base64(signature)`; a panic from
the timestamp encoding propagates. -/
def sign_with_timestamp (A : SigningAlgorithm) (derivedKey : List Nat) (sep : Char)
    (value : List Char) (ts : Int) : PResult Empty (List Char) :=
  match timestamp.encode ts with
  | .panic => .panic
  | .err e => .err e
  | .ok encodedTimestamp =>
      .ok (value ++ sep :: (encodedTimestamp ++ sep ::
        base64.encode (timedSignature A derivedKey sep value encodedTimestamp)))

/-- `TimestampSigner::unsign` from `timed.rs`: inner `Signer::unsign`
(errors convert through `From<BadSignature>`), then split the payload at
its last separator (`TimestampMissing` when absent), then decode the
timestamp. -/
def unsign (A : SigningAlgorithm) (derivedKey : List Nat) (sep : Char)
    (input : List Char) : PResult BadTimedSignature (List Char × Int) :=
  match Signer.unsign A derivedKey sep input with
  | .panic => .panic
  | .err e => .err e.toTimed
  | .ok payload =>
      match Separator.split sep payload with
      | none => .err (.timestampMissing payload)
      | some (value, tsChars) =>
          match timestamp.decode tsChars with
          | .panic => .panic
          | .err e => .err e
          | .ok ts => .ok (value, ts)

end TimestampSigner

namespace UnsignedValue

/-- `UnsignedValue::value_if_not_expired` from `timed.rs`:
`timestamp.elapsed()` is `Err` when the timestamp lies in the future
(treated as not expired), and an elapsed duration strictly greater than
`max_age` is `TimestampExpired`. -/
def value_if_not_expired (now ts : Int) (maxAge : Nat) (value : List Char) :
    Except BadTimedSignature (List Char) :=
  if 0 ≤ now - ts then
    if now - ts > (maxAge : Int) then .error (.timestampExpired ts maxAge value)
    else .ok value
  else .ok value

end UnsignedValue

/-- The serializer-layer `BadSignature` (`error.rs`), whose
`PayloadInvalid` variant wraps a deserialization error `E` of the
serialization collaborator. -/
inductive SBadSignature (E : Type) where
  | separatorNotFound (separator : Char)
  | signatureMismatch (signature : List Char) (value : List Char)
  | payloadInvalid (value : List Char) (error : E)
  deriving DecidableEq, Repr

/-- The `Serializer` capability implemented by the primary serializer of a
`MultiSerializer` (`serializer_traits.rs`): sign a `T` to a token string,
unsign a token string back to a `T`. -/
structure SerializerModel (T E : Type) where
  sign : T → Except E (List Char)
  unsign : List Char → Except (SBadSignature E) T

/-- The `UnsignToString` capability implemented by fallback serializers
(`serializer_traits.rs`): recover a plain decoded string without
knowledge of the target shape. -/
structure FallbackModel (E : Type) where
  unsign_to_string : List Char → Except (SBadSignature E) (List Char)

namespace MultiSerializer

/-- `MultiSerializer::sign` from `multi_serializer.rs`: delegates to the
primary serializer. -/
def sign {T E : Type} (primary : SerializerModel T E)
    (fallbacks : List (FallbackModel E)) (v : T) : Except E (List Char) :=
  primary.sign v

/-- The fallback loop of `MultiSerializer::unsign`: the first fallback
whose `unsign_to_string` succeeds has its recovered payload converted via
`serde_json::from_str` (modelled by `from_str`); if none succeeds the
primary's original error is returned. -/
def tryFallbacks {T E : Type} (primaryErr : SBadSignature E)
    (from_str : List Char → Except E T) (value : List Char) :
    List (FallbackModel E) → Except (SBadSignature E) T
  | [] => .error primaryErr
  | f :: rest =>
      match f.unsign_to_string value with
      | .ok s => (from_str s).mapError (fun e => .payloadInvalid value e)
      | .error _ => tryFallbacks primaryErr from_str value rest

/-- `MultiSerializer::unsign` from `multi_serializer.rs`: try the primary
first and return its success directly; otherwise run the fallback loop
with the primary's error saved. -/
def unsign {T E : Type} (primary : SerializerModel T E)
    (from_str : List Char → Except E T) (fallbacks : List (FallbackModel E))
    (value : List Char) : Except (SBadSignature E) T :=
  match primary.unsign value with
  | .ok unsigned => .ok unsigned
  | .error e => tryFallbacks e from_str value fallbacks

end MultiSerializer

theorem utf8Encode_ascii (l : List Char) (h : ∀ c ∈ l, c.toNat < 128) :
    utf8Encode l = l.map Char.toNat := by
  induction l with
  | nil => rfl
  | cons c rest ih =>
      simp only [utf8Encode, List.flatMap_cons, List.map_cons]
      rw [utf8Char_ascii c (h c (by simp))]
      simp only [List.singleton_append, List.cons.injEq, true_and]
      exact ih (fun x hx => h x (by simp [hx]))

namespace timestamp

theorem toBytesBE_length (w n : Nat) : (toBytesBE w n).length = w := by
  induction w generalizing n with
  | zero => rfl
  | succ k ih => simp [toBytesBE, ih]

theorem toBytesBE_lt (w n : Nat) : ∀ b ∈ toBytesBE w n, b < 256 := by
  induction w generalizing n with
  | zero => simp [toBytesBE]
  | succ k ih =>
      intro b hb
      simp only [toBytesBE, List.mem_append, List.mem_singleton] at hb
      rcases hb with hb | rfl
      · exact ih (n / 256) b hb
      · omega

theorem fromBytesBE_append_singleton (bs : List Nat) (b : Nat) :
    fromBytesBE (bs ++ [b]) = fromBytesBE bs * 256 + b := by
  simp [fromBytesBE, List.foldl_append]

theorem fromBytesBE_toBytesBE (w n : Nat) (h : n < 256 ^ w) :
    fromBytesBE (toBytesBE w n) = n := by
  induction w generalizing n with
  | zero =>
      simp only [Nat.pow_zero, Nat.lt_one_iff] at h
      simp [toBytesBE, fromBytesBE, h]
  | succ k ih =>
      have hdiv : n / 256 < 256 ^ k := by
        rw [Nat.div_lt_iff_lt_mul (by omega)]
        calc n < 256 ^ (k + 1) := h
        _ = 256 ^ k * 256 := by ring
      simp only [toBytesBE, fromBytesBE_append_singleton, ih (n / 256) hdiv]
      omega

theorem fromBytesBE_dropWhile_zero (bs : List Nat) :
    fromBytesBE (bs.dropWhile (· = 0)) = fromBytesBE bs := by
  induction bs with
  | nil => rfl
  | cons b rest ih =>
      by_cases hb : b = 0
      · subst hb
        rw [List.dropWhile_cons_of_pos (by simp)]
        rw [ih]
        simp [fromBytesBE]
      · rw [List.dropWhile_cons_of_neg (by simp [hb])]

theorem fromBytesBE_replicate_zero_append (k : Nat) (bs : List Nat) :
    fromBytesBE (List.replicate k 0 ++ bs) = fromBytesBE bs := by
  induction k with
  | zero => rfl
  | succ j ih =>
      simp only [List.replicate_succ, List.cons_append]
      show fromBytesBE (List.replicate j 0 ++ bs) = fromBytesBE bs
      exact ih

/-- The significant (leading-zero-stripped) big-endian bytes of the
legacy-epoch delta of a timestamp. -/
def strippedBytes (ts : Int) : List Nat :=
  (toBytesBE 8 (ts.toNat - LEGACY_EPOCH)).dropWhile (· = 0)

theorem strippedBytes_lt (ts : Int) : ∀ b ∈ strippedBytes ts, b < 256 := by
  intro b hb
  exact toBytesBE_lt 8 _ b ((List.dropWhile_sublist _).mem hb)

theorem strippedBytes_length_le (ts : Int) : (strippedBytes ts).length ≤ 8 := by
  calc (strippedBytes ts).length ≤ (toBytesBE 8 (ts.toNat - LEGACY_EPOCH)).length :=
        (List.dropWhile_sublist _).length_le
  _ = 8 := toBytesBE_length 8 _

theorem LEGACY_EPOCH_eq : LEGACY_EPOCH = 1293840000 := rfl

theorem encode_ok (ts : Int) (h1 : (LEGACY_EPOCH : Int) ≤ ts) :
    encode ts = .ok (base64.encode (strippedBytes ts)) := by
  rw [LEGACY_EPOCH_eq] at h1
  unfold encode
  rw [if_neg (by omega), if_neg (by rw [LEGACY_EPOCH_eq]; omega)]
  rfl

theorem decode_of_decode8 (cs : List Char) (bytes : List Nat)
    (h : base64.decode 8 cs = .ok bytes)
    (hfit : fromBytesBE (List.replicate (8 - bytes.length) 0 ++ bytes) +
      LEGACY_EPOCH < 2 ^ 64) :
    decode cs = .ok (Int.ofNat (fromBytesBE
      (List.replicate (8 - bytes.length) 0 ++ bytes) + LEGACY_EPOCH)) := by
  unfold decode
  rw [h]
  show (if fromBytesBE (List.replicate (8 - bytes.length) 0 ++ bytes) +
          LEGACY_EPOCH < 2 ^ 64
        then PResult.ok (Int.ofNat (fromBytesBE
          (List.replicate (8 - bytes.length) 0 ++ bytes) + LEGACY_EPOCH))
        else PResult.panic) = _
  rw [if_pos hfit]

theorem decode_encode_ok (ts : Int) (h1 : (LEGACY_EPOCH : Int) ≤ ts)
    (h2 : ts < 2 ^ 64) : decode (base64.encode (strippedBytes ts)) = .ok ts := by
  rw [LEGACY_EPOCH_eq] at h1
  have hLe : LEGACY_EPOCH ≤ ts.toNat := by rw [LEGACY_EPOCH_eq]; omega
  have hlt : ts.toNat < 2 ^ 64 := by omega
  have hdelta : ts.toNat - LEGACY_EPOCH < 256 ^ 8 := by
    rw [LEGACY_EPOCH_eq]
    omega
  have hval : fromBytesBE
      (List.replicate (8 - (strippedBytes ts).length) 0 ++ strippedBytes ts) =
      ts.toNat - LEGACY_EPOCH := by
    rw [fromBytesBE_replicate_zero_append]
    unfold strippedBytes
    rw [fromBytesBE_dropWhile_zero]
    exact fromBytesBE_toBytesBE 8 _ hdelta
  have henc : base64.decode 8 (base64.encode (strippedBytes ts)) =
      .ok (strippedBytes ts) :=
    base64.decode_encode 8 (strippedBytes ts) (strippedBytes_lt ts)
      (strippedBytes_length_le ts)
  have hfit : fromBytesBE
      (List.replicate (8 - (strippedBytes ts).length) 0 ++ strippedBytes ts) +
      LEGACY_EPOCH < 2 ^ 64 := by
    rw [hval]
    rw [LEGACY_EPOCH_eq] at hLe ⊢
    omega
  rw [decode_of_decode8 (base64.encode (strippedBytes ts)) (strippedBytes ts)
    henc hfit]
  rw [hval]
  have hsum : ts.toNat - LEGACY_EPOCH + LEGACY_EPOCH = ts.toNat := by
    rw [LEGACY_EPOCH_eq]
    rw [LEGACY_EPOCH_eq] at hLe
    omega
  rw [hsum]
  show PResult.ok ((ts.toNat : Int)) = PResult.ok ts
  rw [Int.toNat_of_nonneg (by omega : (0 : Int) ≤ ts)]
end timestamp

theorem utf8Encode_cons (c : Char) (l : List Char) :
    utf8Encode (c :: l) = utf8Char c ++ utf8Encode l := by
  simp [utf8Encode]

/-- A well-formed token whose signature segment is the base64 encoding of
the expected MAC unsigns to its payload. -/
theorem Signer.unsign_of_eq (A : SigningAlgorithm) (key : List Nat) (sep : Char)
    (input payload : List Char) (sig : List Nat)
    (hin : input = payload ++ sep :: base64.encode sig)
    (hsep : base64.in_alphabet sep = false)
    (hsig : ∀ b ∈ sig, b < 256) (hlen : sig.length = A.outputSize)
    (hmac : A.mac key (utf8Encode payload) = sig) :
    Signer.unsign A key sep input = .ok payload := by
  subst hin
  unfold Signer.unsign
  rw [Separator.split_append sep payload _ (base64.not_mem_encode _ sep hsig hsep)]
  simp [base64.decode_encode A.outputSize sig hsig (le_of_eq hlen), hlen, hmac]

/-- Untimed round-trip, for every algorithm, derived key, valid separator
and value. -/
theorem Signer.unsign_sign_eq_ok (A : SigningAlgorithm) (key : List Nat) (sep : Char)
    (v : List Char) (hsep : base64.in_alphabet sep = false) :
    Signer.unsign A key sep (Signer.sign A key sep v) = .ok v :=
  Signer.unsign_of_eq A key sep _ v (A.mac key (utf8Encode v)) rfl hsep
    (A.mac_lt key _) (A.mac_length key _) rfl

theorem TimestampSigner.sign_with_timestamp_ok (A : SigningAlgorithm)
    (key : List Nat) (sep : Char) (v : List Char) (ts : Int) (encTs : List Char)
    (henc : timestamp.encode ts = .ok encTs) :
    TimestampSigner.sign_with_timestamp A key sep v ts =
      .ok (v ++ sep :: (encTs ++ sep ::
        base64.encode (TimestampSigner.timedSignature A key sep v encTs))) := by
  unfold TimestampSigner.sign_with_timestamp
  rw [henc]

theorem TimestampSigner.unsign_eq_ok (A : SigningAlgorithm) (key : List Nat)
    (sep : Char) (input value tsChars : List Char) (ts : Int)
    (hinner : Signer.unsign A key sep input = .ok (value ++ sep :: tsChars))
    (hnm : sep ∉ tsChars)
    (hts : timestamp.decode tsChars = .ok ts) :
    TimestampSigner.unsign A key sep input = .ok (value, ts) := by
  unfold TimestampSigner.unsign
  rw [hinner]
  simp [Separator.split_append sep value tsChars hnm, hts]

/-- The MAC input recomputed by the inner unsign over the payload
`value + sep + encoded_timestamp` coincides with the folded MAC input of
`sign_with_timestamp` whenever the separator is an ASCII character. -/
theorem TimestampSigner.timedSignature_eq (A : SigningAlgorithm) (key : List Nat)
    (sep : Char) (v encTs : List Char) (hascii : sep.toNat < 128)
    (hEncAscii : ∀ c ∈ encTs, c.toNat < 128) :
    A.mac key (utf8Encode (v ++ sep :: encTs)) =
      TimestampSigner.timedSignature A key sep v encTs := by
  unfold TimestampSigner.timedSignature
  rw [utf8Encode_append, utf8Encode_cons, utf8Char_ascii sep hascii,
    utf8Encode_ascii encTs hEncAscii,
    Nat.mod_eq_of_lt (by omega : sep.toNat < 256)]
  simp

/-- Timed round-trip under an ASCII separator and a representable
timestamp. -/
theorem TimestampSigner.unsign_timed_sign (A : SigningAlgorithm) (key : List Nat)
    (sep : Char) (v : List Char) (ts : Int)
    (hsep : base64.in_alphabet sep = false) (hascii : sep.toNat < 128)
    (h1 : (timestamp.LEGACY_EPOCH : Int) ≤ ts) (h2 : ts < 2 ^ 64) :
    ∃ token, TimestampSigner.sign_with_timestamp A key sep v ts = .ok token ∧
      TimestampSigner.unsign A key sep token = .ok (v, ts) := by
  have hencB : ∀ b ∈ timestamp.strippedBytes ts, b < 256 :=
    timestamp.strippedBytes_lt ts
  have hEncTsAscii : ∀ c ∈ base64.encode (timestamp.strippedBytes ts),
      c.toNat < 128 := base64.encode_mem_toNat_lt _ hencB
  have hEncTsNm : sep ∉ base64.encode (timestamp.strippedBytes ts) :=
    base64.not_mem_encode _ sep hencB hsep
  have hmacEq := TimestampSigner.timedSignature_eq A key sep v
    (base64.encode (timestamp.strippedBytes ts)) hascii hEncTsAscii
  have hassoc : v ++ sep :: (base64.encode (timestamp.strippedBytes ts) ++
      sep :: base64.encode (TimestampSigner.timedSignature A key sep v
        (base64.encode (timestamp.strippedBytes ts)))) =
      (v ++ sep :: base64.encode (timestamp.strippedBytes ts)) ++
      sep :: base64.encode (TimestampSigner.timedSignature A key sep v
        (base64.encode (timestamp.strippedBytes ts))) :=
    ((List.append_assoc v (sep :: base64.encode (timestamp.strippedBytes ts))
      (sep :: base64.encode (TimestampSigner.timedSignature A key sep v
        (base64.encode (timestamp.strippedBytes ts))))).trans
      (congrArg (fun l => v ++ l)
        (List.cons_append sep (base64.encode (timestamp.strippedBytes ts))
          (sep :: base64.encode (TimestampSigner.timedSignature A key sep v
            (base64.encode (timestamp.strippedBytes ts))))))).symm
  have hinner := Signer.unsign_of_eq A key sep
    (v ++ sep :: (base64.encode (timestamp.strippedBytes ts) ++
      sep :: base64.encode (TimestampSigner.timedSignature A key sep v
        (base64.encode (timestamp.strippedBytes ts)))))
    (v ++ sep :: base64.encode (timestamp.strippedBytes ts))
    (TimestampSigner.timedSignature A key sep v
      (base64.encode (timestamp.strippedBytes ts)))
    hassoc hsep (A.mac_lt key _) (A.mac_length key _) hmacEq
  exact ⟨_, TimestampSigner.sign_with_timestamp_ok A key sep v ts _
      (timestamp.encode_ok ts h1),
    TimestampSigner.unsign_eq_ok A key sep _ v
      (base64.encode (timestamp.strippedBytes ts)) ts hinner hEncTsNm
      (timestamp.decode_encode_ok ts h1 h2)⟩

theorem base64.decodeFull_ok_nil (input : List Char)
    (h : base64.decodeFull input = .ok []) : input = [] := by
  unfold base64.decodeFull at h
  split at h
  · cases h
  · rename_i hmod
    cases hcs : base64.charsToSextets input with
    | error e => rw [hcs] at h; cases h
    | ok ss =>
        rw [hcs] at h
        have h1 := base64.decodeQuads_length ss [] h
        have h2 := base64.charsToSextets_length input ss hcs
        rw [h2] at h1
        simp only [List.length_nil] at h1
        have : input.length = 0 := by omega
        exact List.eq_nil_of_length_eq_zero this

/-- The accumulated MAC input of the timed signer, written as a single
concatenation. -/
theorem TimestampSigner.timedSignature_def (A : SigningAlgorithm)
    (key : List Nat) (sep : Char) (v encTs : List Char) :
    TimestampSigner.timedSignature A key sep v encTs =
      A.mac key (utf8Encode v ++ sep.toNat % 256 :: encTs.map Char.toNat) := by
  unfold TimestampSigner.timedSignature
  simp

theorem MultiSerializer.tryFallbacks_all_fail {T E : Type}
    (pe : SBadSignature E) (from_str : List Char → Except E T)
    (value : List Char) :
    ∀ (fbs : List (FallbackModel E)),
      (∀ g ∈ fbs, ∃ ge, g.unsign_to_string value = .error ge) →
      MultiSerializer.tryFallbacks pe from_str value fbs = .error pe
  | [], _ => rfl
  | g :: rest, hall => by
      obtain ⟨ge, hge⟩ := hall g (by simp)
      unfold MultiSerializer.tryFallbacks
      rw [hge]
      exact MultiSerializer.tryFallbacks_all_fail pe from_str value rest
        (fun x hx => hall x (by simp [hx]))

theorem MultiSerializer.tryFallbacks_first_ok {T E : Type}
    (pe : SBadSignature E) (from_str : List Char → Except E T)
    (value : List Char) (f : FallbackModel E)
    (post : List (FallbackModel E)) (s : List Char)
    (hf : f.unsign_to_string value = .ok s) :
    ∀ (pre : List (FallbackModel E)),
      (∀ g ∈ pre, ∃ ge, g.unsign_to_string value = .error ge) →
      MultiSerializer.tryFallbacks pe from_str value (pre ++ f :: post) =
        (from_str s).mapError (fun err => .payloadInvalid value err)
  | [], _ => by
      simp only [List.nil_append]
      unfold MultiSerializer.tryFallbacks
      rw [hf]
  | g :: rest, hpre => by
      obtain ⟨ge, hge⟩ := hpre g (by simp)
      simp only [List.cons_append]
      unfold MultiSerializer.tryFallbacks
      rw [hge]
      exact MultiSerializer.tryFallbacks_first_ok pe from_str value f post s hf
        rest (fun x hx => hpre x (by simp [hx]))

/-- **C1** (amended): for every signing algorithm (hence every secret key
and salt, which only enter through the derived key), every valid
separator and every value, `unsign (sign v) = Ok v`; and for every
representable timestamp (at whole-second precision, between the 2011
legacy epoch and `u64` range), the timed round-trip
`unsign (sign_with_timestamp v ts)` returns the value and timestamp —
provided the separator is an ASCII character.  (The unamended claim,
quantifying over every valid separator, fails for the timed signer: see
the counterexample, where a non-ASCII separator makes
`sign_with_timestamp` MAC the truncated cast `seperator as u8` while
`unsign` re-MACs the separator's multi-byte UTF-8 encoding.) -/
theorem C1_sign_unsign_roundtrip (A : SigningAlgorithm) (derivedKey : List Nat)
    (sep : Char) (v : List Char) (hsep : base64.in_alphabet sep = false) :
    Signer.unsign A derivedKey sep (Signer.sign A derivedKey sep v) = .ok v ∧
    (∀ ts : Int, sep.toNat < 128 → (timestamp.LEGACY_EPOCH : Int) ≤ ts →
      ts < 2 ^ 64 →
      ∃ token,
        TimestampSigner.sign_with_timestamp A derivedKey sep v ts = .ok token ∧
        TimestampSigner.unsign A derivedKey sep token = .ok (v, ts)) :=
  ⟨Signer.unsign_sign_eq_ok A derivedKey sep v hsep,
   fun ts hascii h1 h2 =>
     TimestampSigner.unsign_timed_sign A derivedKey sep v ts hsep hascii h1 h2⟩

/-- **C1** counterexample: `'¿'` (U+00BF) is a valid separator (it is not
in the base64 alphabet), yet the timed round-trip fails on it: the token
signed with timestamp 1560181622 does not unsign to its value and
timestamp (it yields `SignatureMismatch`), because `seperator as u8`
(0xBF) and the separator's UTF-8 bytes (0xC2 0xBF) disagree in the MAC
input. -/
theorem C1_roundtrip_counterexample :
    base64.in_alphabet '¿' = false ∧
    (match TimestampSigner.sign_with_timestamp (SumAlgorithm 1) [0] '¿'
        "x".toList 1560181622 with
     | .ok token => TimestampSigner.unsign (SumAlgorithm 1) [0] '¿' token
     | _ => .panic) ≠ .ok ("x".toList, 1560181622) := by
  constructor
  · decide
  · decide

/-- **C1** witness: the round-trip theorem evaluated for a concrete
algorithm, derived key, the default separator `'.'`, a concrete value and
the timestamp of the crate's own test vector. -/
theorem C1_roundtrip_witness :
    Signer.unsign (SumAlgorithm 2) [5] '.'
      (Signer.sign (SumAlgorithm 2) [5] '.' "hello world".toList) =
      .ok "hello world".toList ∧
    (∃ token,
      TimestampSigner.sign_with_timestamp (SumAlgorithm 2) [5] '.'
        "hello world".toList 1560181622 = .ok token ∧
      TimestampSigner.unsign (SumAlgorithm 2) [5] '.' token =
        .ok ("hello world".toList, 1560181622)) :=
  ⟨(C1_sign_unsign_roundtrip (SumAlgorithm 2) [5] '.' "hello world".toList
      (by decide)).1,
   (C1_sign_unsign_roundtrip (SumAlgorithm 2) [5] '.' "hello world".toList
      (by decide)).2 1560181622 (by decide) (by decide) (by decide)⟩

/-- **C2**: `sign_with_timestamp` produces exactly
`value + sep + encoded_timestamp + sep + base64(signature)` where the
signature is the MAC, under the derived key, of the single folded input
`value_bytes ++ [sep_byte] ++ encoded_timestamp_bytes` (`sep_byte` is the
eight-bit cast `seperator as u8`, i.e. `sep.toNat % 256`); the timestamp
is not signed separately. -/
theorem C2_timed_framing_and_mac (A : SigningAlgorithm) (derivedKey : List Nat)
    (sep : Char) (v : List Char) (ts : Int)
    (h1 : (timestamp.LEGACY_EPOCH : Int) ≤ ts) :
    TimestampSigner.sign_with_timestamp A derivedKey sep v ts =
      .ok (v ++ sep :: (base64.encode (timestamp.strippedBytes ts) ++ sep ::
        base64.encode (A.mac derivedKey (utf8Encode v ++ sep.toNat % 256 ::
          (base64.encode (timestamp.strippedBytes ts)).map Char.toNat)))) :=
  (TimestampSigner.sign_with_timestamp_ok A derivedKey sep v ts _
    (timestamp.encode_ok ts h1)).trans
    (congrArg
      (fun s => (PResult.ok (v ++ sep ::
        (base64.encode (timestamp.strippedBytes ts) ++ sep ::
          base64.encode s)) : PResult Empty (List Char)))
      (TimestampSigner.timedSignature_def A derivedKey sep v
        (base64.encode (timestamp.strippedBytes ts))))

/-- **C2** witness: the framing equation evaluated at a concrete
algorithm, key, separator, value and timestamp. -/
theorem C2_timed_framing_witness :
    TimestampSigner.sign_with_timestamp (SumAlgorithm 2) [7] '.' "hi".toList
        1560181622 =
      .ok ("hi".toList ++ '.' ::
        (base64.encode (timestamp.strippedBytes 1560181622) ++ '.' ::
        base64.encode ((SumAlgorithm 2).mac [7] (utf8Encode "hi".toList ++
          '.'.toNat % 256 ::
          (base64.encode (timestamp.strippedBytes 1560181622)).map
            Char.toNat)))) :=
  C2_timed_framing_and_mac (SumAlgorithm 2) [7] '.' "hi".toList 1560181622
    (by decide)

/-- **C3** (amended): for every input containing the separator whose
post-separator segment is no longer than the encoded signature length
(`output_size` of the algorithm's signature size — longer segments make
the fixed-buffer base64 decode panic instead, see the counterexample), if
that segment fails base64 decoding or decodes to a byte length different
from the signature size, `unsign` returns `Err(SignatureMismatch)` — the
identical error variant as a well-formed but non-matching signature. -/
theorem C3_decode_failure_collapse (A : SigningAlgorithm)
    (derivedKey : List Nat) (sep : Char) (input value signature : List Char)
    (hsplit : Separator.split sep input = some (value, signature))
    (hlen : signature.length ≤ base64.output_size A.outputSize)
    (hfail : (∃ e, base64.decodeFull signature = .error e) ∨
      ∃ bs, base64.decodeFull signature = .ok bs ∧ bs.length ≠ A.outputSize) :
    Signer.unsign A derivedKey sep input =
      .err (.signatureMismatch signature value) := by
  unfold Signer.unsign
  simp only [hsplit]
  rcases hfail with ⟨e, he⟩ | ⟨bs, hbs, hne⟩
  · have hd : base64.decode A.outputSize signature = .err e := by
      unfold base64.decode
      simp only [he]
    simp only [hd]
  · have hble : bs.length ≤ A.outputSize :=
      base64.decodeFull_length_le A.outputSize signature bs hlen hbs
    have hd : base64.decode A.outputSize signature = .ok bs := by
      unfold base64.decode
      simp only [hbs]
      rw [if_neg (by omega)]
    simp only [hd]
    rw [if_neg hne]

/-- **C3** counterexample: with the default SHA-1 signature size (20
bytes, 27 encoded characters), a valid-base64 signature segment of 36
characters decodes to 27 bytes, overflowing the 20-byte signature buffer:
`unsign` panics in the external `decode_config_slice` instead of
returning `Err(SignatureMismatch)`. -/
theorem C3_collapse_counterexample :
    Signer.unsign (SumAlgorithm 20) [0] '.'
      ("b.".toList ++ List.replicate 36 'B') = .panic ∧
    (PResult.panic : PResult BadSignature (List Char)) ≠
      .err (.signatureMismatch (List.replicate 36 'B') "b".toList) := by
  constructor
  · decide
  · decide

/-- **C3** witness: a malformed two-character signature segment (`"!!"`,
not base64) collapses to `SignatureMismatch`. -/
theorem C3_collapse_witness :
    Signer.unsign (SumAlgorithm 2) [1] '.' "v.!!".toList =
      .err (.signatureMismatch "!!".toList "v".toList) :=
  C3_decode_failure_collapse (SumAlgorithm 2) [1] '.' "v.!!".toList
    "v".toList "!!".toList (by decide) (by decide)
    (.inl ⟨.invalidByte, by rfl⟩)

/-- **C4**: the claim that `unsign` never panics on malformed input fails
on long garbage signature segments.  With a 20-byte signature size
(SHA-1), the input `"a." ++ 32 × 'A'` has a valid-base64 signature
segment decoding to 24 bytes; `base64::decode_config_slice` writes past
the 20-byte `GenericArray` buffer and panics, in both `Signer::unsign`
and `TimestampSigner::unsign`. -/
theorem C4_unsign_panics_on_long_signature :
    Signer.unsign (SumAlgorithm 20) [0] '.'
      ("a.".toList ++ List.replicate 32 'A') = .panic ∧
    TimestampSigner.unsign (SumAlgorithm 20) [0] '.'
      ("a.".toList ++ List.replicate 32 'A') = .panic := by
  constructor
  · decide
  · decide

/-- **C5**: `timestamp::encode` equals the URL-safe unpadded base64 of
the 8-byte big-endian encoding of `seconds - LEGACY_EPOCH` with leading
zero bytes stripped, and decoding that encoding returns the timestamp
exactly, for every representable timestamp (whole seconds in
`[LEGACY_EPOCH, 2^64)`). -/
theorem C5_timestamp_codec (ts : Int) (h1 : (timestamp.LEGACY_EPOCH : Int) ≤ ts)
    (h2 : ts < 2 ^ 64) :
    timestamp.encode ts = .ok (base64.encode
      ((timestamp.toBytesBE 8 (ts.toNat - timestamp.LEGACY_EPOCH)).dropWhile
        (· = 0))) ∧
    timestamp.decode (base64.encode
      ((timestamp.toBytesBE 8 (ts.toNat - timestamp.LEGACY_EPOCH)).dropWhile
        (· = 0))) = .ok ts :=
  ⟨timestamp.encode_ok ts h1, timestamp.decode_encode_ok ts h1 h2⟩

/-- **C5** witness: the codec equations evaluated at the timestamp of the
crate's own test vector (whose encoding is `"D-AM9g"`). -/
theorem C5_timestamp_codec_witness :
    timestamp.encode 1560181622 = .ok (base64.encode
      ((timestamp.toBytesBE 8 ((1560181622 : Int).toNat -
        timestamp.LEGACY_EPOCH)).dropWhile (· = 0))) ∧
    timestamp.decode (base64.encode
      ((timestamp.toBytesBE 8 ((1560181622 : Int).toNat -
        timestamp.LEGACY_EPOCH)).dropWhile (· = 0))) = .ok 1560181622 :=
  C5_timestamp_codec 1560181622 (by decide) (by decide)

/-- **C6**: `value_if_not_expired(max_age)` returns `Ok(value)` whenever
`now - T0 ≤ max_age` or the timestamp lies in the future, and returns
`Err(TimestampExpired{timestamp, max_age, value})` exactly when
`now - T0 > max_age`. -/
theorem C6_expiry_boundary (now ts : Int) (maxAge : Nat) (value : List Char) :
    ((now - ts ≤ (maxAge : Int) ∨ now < ts) →
      UnsignedValue.value_if_not_expired now ts maxAge value = .ok value) ∧
    (UnsignedValue.value_if_not_expired now ts maxAge value =
        .error (.timestampExpired ts maxAge value) ↔
      (maxAge : Int) < now - ts) := by
  unfold UnsignedValue.value_if_not_expired
  constructor
  · intro h
    by_cases h0 : 0 ≤ now - ts
    · rw [if_pos h0, if_neg (by omega)]
    · rw [if_neg h0]
  · by_cases h0 : 0 ≤ now - ts
    · rw [if_pos h0]
      by_cases hgt : now - ts > (maxAge : Int)
      · rw [if_pos hgt]
        simp only [eq_self_iff_true, true_iff]
        omega
      · rw [if_neg hgt]
        constructor
        · intro h
          simp at h
        · intro h
          exact absurd h hgt
    · rw [if_neg h0]
      constructor
      · intro h
        simp at h
      · intro h
        exact absurd h (by omega)

/-- **C6** witness: a token aged 2 seconds against a 5-second budget is
returned, and a token aged 10 seconds against a 3-second budget fails
with `TimestampExpired` carrying the timestamp, budget and value. -/
theorem C6_expiry_boundary_witness :
    UnsignedValue.value_if_not_expired 20 18 5 "v".toList = .ok "v".toList ∧
    UnsignedValue.value_if_not_expired 10 0 3 "v".toList =
      .error (.timestampExpired 0 3 "v".toList) :=
  ⟨(C6_expiry_boundary 20 18 5 "v".toList).1 (Or.inl (by decide)),
   (C6_expiry_boundary 10 0 3 "v".toList).2.mpr (by decide)⟩

/-- **C7**: `MultiSerializer::sign` always delegates to the primary
serializer only; `unsign` tries the primary first and returns its
success, otherwise tries each fallback in registration order, converting
the first fallback success (`unsign_to_string` returning `Ok`) through
the deserializer, and when the primary and every fallback fail it
surfaces the primary's original error. -/
theorem C7_multi_serializer_protocol {T E : Type}
    (primary : SerializerModel T E) (from_str : List Char → Except E T)
    (value : List Char) :
    (∀ (fallbacks : List (FallbackModel E)) (v : T),
      MultiSerializer.sign primary fallbacks v = primary.sign v) ∧
    (∀ (fallbacks : List (FallbackModel E)) (u : T),
      primary.unsign value = .ok u →
      MultiSerializer.unsign primary from_str fallbacks value = .ok u) ∧
    (∀ (e : SBadSignature E) (pre post : List (FallbackModel E))
      (f : FallbackModel E) (s : List Char),
      primary.unsign value = .error e →
      (∀ g ∈ pre, ∃ ge, g.unsign_to_string value = .error ge) →
      f.unsign_to_string value = .ok s →
      MultiSerializer.unsign primary from_str (pre ++ f :: post) value =
        (from_str s).mapError (fun err => .payloadInvalid value err)) ∧
    (∀ (e : SBadSignature E) (fallbacks : List (FallbackModel E)),
      primary.unsign value = .error e →
      (∀ g ∈ fallbacks, ∃ ge, g.unsign_to_string value = .error ge) →
      MultiSerializer.unsign primary from_str fallbacks value = .error e) := by
  refine ⟨fun _ _ => rfl, ?_, ?_, ?_⟩
  · intro fallbacks u h
    unfold MultiSerializer.unsign
    simp only [h]
  · intro e pre post f s hp hpre hf
    unfold MultiSerializer.unsign
    simp only [hp]
    exact MultiSerializer.tryFallbacks_first_ok e from_str value f post s hf
      pre hpre
  · intro e fallbacks hp hall
    unfold MultiSerializer.unsign
    simp only [hp]
    exact MultiSerializer.tryFallbacks_all_fail e from_str value fallbacks hall

/-- A concrete primary serializer used to evaluate the multi-serializer
protocol: it signs a `Nat` and rejects every unsign attempt. -/
def wPrimary : SerializerModel Nat Unit where
  sign := fun n => .ok (List.replicate n 'a')
  unsign := fun _ => .error (.signatureMismatch [] [])

/-- A concrete fallback that always fails to unsign. -/
def wFallbackBad : FallbackModel Unit where
  unsign_to_string := fun _ => .error (.separatorNotFound '.')

/-- A concrete fallback that accepts every token and returns it. -/
def wFallbackGood : FallbackModel Unit where
  unsign_to_string := fun s => .ok s

/-- A concrete deserializer for the multi-serializer witness. -/
def wFromStr : List Char → Except Unit Nat := fun s => .ok s.length

/-- **C7** witness: with a failing primary, a failing first fallback and
an accepting second fallback, `sign` is the primary's sign, `unsign`
returns the second fallback's converted payload, and with only failing
fallbacks the primary's error is surfaced. -/
theorem C7_multi_serializer_witness :
    MultiSerializer.sign wPrimary [wFallbackBad, wFallbackGood] 3 =
      wPrimary.sign 3 ∧
    MultiSerializer.unsign wPrimary wFromStr [wFallbackBad, wFallbackGood]
      "tok".toList =
      (wFromStr "tok".toList).mapError
        (fun err => .payloadInvalid "tok".toList err) ∧
    MultiSerializer.unsign wPrimary wFromStr [wFallbackBad] "tok".toList =
      .error (.signatureMismatch [] []) :=
  ⟨(C7_multi_serializer_protocol wPrimary wFromStr "tok".toList).1
      [wFallbackBad, wFallbackGood] 3,
   (C7_multi_serializer_protocol wPrimary wFromStr "tok".toList).2.2.1
      (.signatureMismatch [] []) [wFallbackBad] [] wFallbackGood "tok".toList
      rfl
      (fun g hg => by
        simp only [List.mem_singleton] at hg
        subst hg
        exact ⟨.separatorNotFound '.', rfl⟩)
      rfl,
   (C7_multi_serializer_protocol wPrimary wFromStr "tok".toList).2.2.2
      (.signatureMismatch [] []) [wFallbackBad]
      rfl
      (fun g hg => by
        simp only [List.mem_singleton] at hg
        subst hg
        exact ⟨.separatorNotFound '.', rfl⟩)⟩

/-- **C8**: for every byte string (hence every input length `N`), the
compile-time `output_size` formula is `⌊N/3⌋*4 + (N mod 3) + min (N mod
3) 1`, the base64 encoding has exactly `output_size N` characters, and
decoding that encoding through the fixed-size `N`-byte decoder returns
the original bytes. -/
theorem C8_base64_size_law (bytes : List Nat) (h : ∀ b ∈ bytes, b < 256) :
    (base64.encode bytes).length = base64.output_size bytes.length ∧
    base64.decode bytes.length (base64.encode bytes) = .ok bytes :=
  ⟨base64.encode_length bytes,
   base64.decode_encode bytes.length bytes h (le_refl _)⟩

/-- **C8** witness: the size law and round-trip evaluated on a concrete
4-byte input (`output_size 4 = 6`). -/
theorem C8_base64_size_law_witness :
    (base64.encode [10, 20, 30, 40]).length = base64.output_size 4 ∧
    base64.decode 4 (base64.encode [10, 20, 30, 40]) = .ok [10, 20, 30, 40] :=
  C8_base64_size_law [10, 20, 30, 40] (by decide)

/-- **C9**: `timestamp::encode` — and therefore `sign_with_timestamp` —
panics (pre-1970 `unwrap`, or the `u64` underflow of
`seconds - LEGACY_EPOCH`, a Rust program error) for every timestamp
before `UNIX_EPOCH + LEGACY_EPOCH` seconds, so no token is returned at
all; for every timestamp at or after that bound (and within `u64`
range), `encode` is total and its output decodes back exactly. -/
theorem C9_timestamp_lower_bound (A : SigningAlgorithm) (derivedKey : List Nat)
    (sep : Char) (v : List Char) (ts : Int) :
    (ts < (timestamp.LEGACY_EPOCH : Int) →
      timestamp.encode ts = .panic ∧
      TimestampSigner.sign_with_timestamp A derivedKey sep v ts = .panic) ∧
    ((timestamp.LEGACY_EPOCH : Int) ≤ ts → ts < 2 ^ 64 →
      ∃ cs, timestamp.encode ts = .ok cs ∧ timestamp.decode cs = .ok ts) := by
  constructor
  · intro hlt
    rw [timestamp.LEGACY_EPOCH_eq] at hlt
    have hpanic : timestamp.encode ts = .panic := by
      unfold timestamp.encode
      by_cases h0 : ts < 0
      · rw [if_pos h0]
      · rw [if_neg h0, if_pos (by rw [timestamp.LEGACY_EPOCH_eq]; omega)]
    refine ⟨hpanic, ?_⟩
    unfold TimestampSigner.sign_with_timestamp
    simp only [hpanic]
  · intro h1 h2
    exact ⟨_, timestamp.encode_ok ts h1, timestamp.decode_encode_ok ts h1 h2⟩

/-- **C9** witness: a 2001 timestamp (and a pre-1970 one) panics in both
`encode` and `sign_with_timestamp`; the 2019 test-vector timestamp
encodes and decodes back. -/
theorem C9_timestamp_lower_bound_witness :
    timestamp.encode 1000000000 = .panic ∧
    TimestampSigner.sign_with_timestamp (SumAlgorithm 1) [0] '.' "x".toList
      (-5) = .panic ∧
    ∃ cs, timestamp.encode 1560181622 = .ok cs ∧
      timestamp.decode cs = .ok 1560181622 :=
  ⟨((C9_timestamp_lower_bound (SumAlgorithm 1) [0] '.' "x".toList
      1000000000).1 (by decide)).1,
   ((C9_timestamp_lower_bound (SumAlgorithm 1) [0] '.' "x".toList
      (-5)).1 (by decide)).2,
   (C9_timestamp_lower_bound (SumAlgorithm 1) [0] '.' "x".toList
      1560181622).2 (by decide) (by decide)⟩

/-- **C10**: for a signer built with `NoneAlgorithm` (zero-length
signature), `unsign` succeeds exactly when the input splits at a last
separator with an empty segment after it — every string ending in the
separator unsigns to its prefix, so disabling signing removes all tamper
detection. -/
theorem C10_none_algorithm_acceptance (derivedKey : List Nat) (sep : Char)
    (input v : List Char) :
    Signer.unsign NoneAlgorithm derivedKey sep input = .ok v ↔
      input = v ++ [sep] := by
  constructor
  · intro h
    unfold Signer.unsign at h
    cases hs : Separator.split sep input with
    | none => rw [hs] at h; cases h
    | some p =>
        obtain ⟨value, signature⟩ := p
        simp only [hs] at h
        cases hd : base64.decodeFull signature with
        | error e =>
            have hdec : base64.decode NoneAlgorithm.outputSize signature =
                .err e := by
              unfold base64.decode
              simp only [hd]
            simp only [hdec] at h
            simp at h
        | ok bs =>
            by_cases hb : bs.length > NoneAlgorithm.outputSize
            · have hdec : base64.decode NoneAlgorithm.outputSize signature =
                  .panic := by
                unfold base64.decode
                simp only [hd]
                rw [if_pos hb]
              simp only [hdec] at h
              simp at h
            · have hdec : base64.decode NoneAlgorithm.outputSize signature =
                  .ok bs := by
                unfold base64.decode
                simp only [hd]
                rw [if_neg hb]
              simp only [hdec] at h
              have hb0 : bs = [] := by
                have hle : bs.length ≤ NoneAlgorithm.outputSize :=
                  Nat.not_lt.mp hb
                have h0 : NoneAlgorithm.outputSize = 0 := rfl
                rw [h0] at hle
                exact List.eq_nil_of_length_eq_zero (by omega)
              subst hb0
              simp only [NoneAlgorithm, List.length_nil, if_pos rfl,
                reduceIte] at h
              cases h
              have hsig : signature = [] :=
                base64.decodeFull_ok_nil signature hd
              subst hsig
              obtain ⟨he, _⟩ := Separator.split_eq_some sep input v [] hs
              exact he
  · rintro rfl
    unfold Signer.unsign
    rw [Separator.split_append sep v [] (by simp)]
    rfl
